import Mathlib

/-!
# Verification of the ASB data-viewer time-series pipeline

Shallow embedding of the analytics core of the viewer repository
(src/src/App.jsx and src/src/components/utils/DataProcessor.jsx):
smoothing (point-count and time-based moving averages), zero-baselining
(both call-site policies), descriptive statistics, pattern detection
(outliers, range), timestamp normalization for numeric inputs, and the
single-axis trace builder.

Modelling conventions:
* JS numbers are modelled as exact rationals (ℚ); JS NaN/undefined are
  modelled by `Option ℚ` (`none` = NaN) or by the `JSVal.nan`
  constructor where a raw cell value is in play.
* Raw cell values are `JSVal` (number, NaN, string, null, undefined);
  the coercions `Number(v)` and `parseFloat(v)` are modelled by
  `toNumberOpt` and `parseFloatOpt` with a concrete decimal parser for
  the string forms they handle exactly (optional sign, digits, optional
  fraction).
* `x.toFixed(4)` followed by `parseFloat` is modelled by `roundTo4`
  (round half up at the fourth decimal), exact for the inputs used here.
* `Math.sqrt` has no exact rational counterpart; the statistics record
  carries the four sqrt-free fields plus the count, and the full
  precision mean/variance are available as `meanQ`/`varianceQ`.
-/

/-- A raw JavaScript cell value as it reaches the pipeline: a finite
number, NaN, a string, null, or undefined. -/
inductive JSVal where
  | num (q : ℚ)
  | nan
  | str (s : String)
  | null
  | undef
deriving DecidableEq

/-- Numeric value of a digit character. -/
def digitVal (c : Char) : ℕ := c.toNat - 48

/-- Value of a digit run read most-significant first. -/
def digitsVal (cs : List Char) : ℕ :=
  cs.foldl (fun a c => 10 * a + digitVal c) 0

/-- Parse an unsigned decimal literal consuming the whole character
list: digits, optionally a dot and more digits, with at least one digit
overall.  Mirrors the numeric-literal forms accepted by JS
coercion for the strings this development evaluates. -/
def parseUnsignedFull (cs : List Char) : Option ℚ :=
  let intPart := cs.takeWhile (·.isDigit)
  let rest := cs.dropWhile (·.isDigit)
  match rest with
  | [] => if intPart.isEmpty then none else some (digitsVal intPart)
  | c :: rest2 =>
    if c = '.' then
      let fracPart := rest2.takeWhile (·.isDigit)
      let rest3 := rest2.dropWhile (·.isDigit)
      if rest3.isEmpty ∧ ¬(intPart.isEmpty ∧ fracPart.isEmpty) then
        some ((digitsVal intPart : ℚ) + (digitsVal fracPart : ℚ) / 10 ^ fracPart.length)
      else none
    else none

/-- Parse an optionally signed decimal literal consuming the whole
character list. -/
def parseSignedFull (cs : List Char) : Option ℚ :=
  match cs with
  | [] => none
  | c :: rest =>
    if c = '-' then (parseUnsignedFull rest).map (fun q => -q)
    else if c = '+' then parseUnsignedFull rest
    else parseUnsignedFull cs

/-- JS `Number(string)`: trim whitespace; the empty string coerces to
`0`; otherwise the whole remainder must be a numeric literal. -/
def jsStringToNumber (s : String) : Option ℚ :=
  let cs := (s.data.dropWhile (·.isWhitespace)).reverse.dropWhile (·.isWhitespace) |>.reverse
  if cs.isEmpty then some 0 else parseSignedFull cs

/-- JS `Number(v)` coercion, `none` meaning NaN.  `Number(null) = 0`,
`Number(undefined) = NaN`, `Number("") = 0`. -/
def toNumberOpt : JSVal → Option ℚ
  | .num q => some q
  | .nan => none
  | .str s => jsStringToNumber s
  | .null => some 0
  | .undef => none

/-- Parse an unsigned decimal prefix (digits, optional dot and digits);
trailing junk is ignored; fails only when no digit was read. -/
def parseUnsignedLead (cs : List Char) : Option ℚ :=
  let intPart := cs.takeWhile (·.isDigit)
  let rest := cs.dropWhile (·.isDigit)
  let fracPart :=
    match rest with
    | c :: rest2 => if c = '.' then rest2.takeWhile (·.isDigit) else []
    | [] => []
  if intPart.isEmpty ∧ fracPart.isEmpty then none
  else some ((digitsVal intPart : ℚ) + (digitsVal fracPart : ℚ) / 10 ^ fracPart.length)

/-- JS `parseFloat(string)`: skip leading whitespace, optional sign,
then the longest numeric prefix; NaN (`none`) when no digit leads. -/
def jsParseFloat (s : String) : Option ℚ :=
  match s.data.dropWhile (·.isWhitespace) with
  | [] => none
  | c :: rest =>
    if c = '-' then (parseUnsignedLead rest).map (fun q => -q)
    else if c = '+' then parseUnsignedLead rest
    else parseUnsignedLead (c :: rest)

/-- JS `parseFloat(v)`, `none` meaning NaN.  Unlike `Number`,
`parseFloat(null)` and `parseFloat("")` are NaN. -/
def parseFloatOpt : JSVal → Option ℚ
  | .num q => some q
  | .nan => none
  | .str s => jsParseFloat s
  | .null => none
  | .undef => none

/-- The slice `data.slice(max(0, idx - windowSize + 1), idx + 1)` taken
by the point-count smoother at index `idx`; `Math.max(0, idx -
windowSize + 1)` is the truncated subtraction `idx + 1 - windowSize`. -/
def windowSlice (data : List ℚ) (windowSize idx : ℕ) : List ℚ :=
  (data.take (idx + 1)).drop (idx + 1 - windowSize)

/-- App.jsx `movingAverage(data, windowSize)`: `output[idx]` is the mean
of `data.slice(max(0, idx - windowSize + 1), idx + 1)`.  The JS `map`
over `data` uses only the index, hence the map over `List.range`. -/
def movingAverage (data : List ℚ) (windowSize : ℕ) : List ℚ :=
  (List.range data.length).map fun idx =>
    let slice := windowSlice data windowSize idx
    slice.sum / slice.length

/-- App.jsx `timeBasedMovingAverage(dataPoints, hoursWindow)` on points
`(timestamp in epoch ms, value)`: for each index the code keeps the
points with `pIdx <= idx && timestamp >= windowStart` (note: no upper
bound on the timestamp) and averages their values, falling back to the
raw value when no point qualifies. -/
def timeBasedMovingAverage (dataPoints : List (ℚ × ℚ)) (hoursWindow : ℚ) : List ℚ :=
  (List.range dataPoints.length).map fun idx =>
    let point := dataPoints.getD idx (0, 0)
    let windowStart := point.1 - hoursWindow * (60 * 60 * 1000)
    let windowPoints := dataPoints.enum.filter fun p =>
      decide (p.1 ≤ idx) && decide (windowStart ≤ p.2.1)
    if windowPoints.length = 0 then point.2
    else (windowPoints.map fun p => p.2.2).sum / windowPoints.length

/-- Modelled from the spec wording of the time-based smoother, for
comparison with the source: the window additionally requires
`timestamp ≤ instant_idx`, so future instants never contribute. -/
def timeBasedMovingAverageSpec (dataPoints : List (ℚ × ℚ)) (hoursWindow : ℚ) : List ℚ :=
  (List.range dataPoints.length).map fun idx =>
    let point := dataPoints.getD idx (0, 0)
    let windowStart := point.1 - hoursWindow * (60 * 60 * 1000)
    let windowPoints := dataPoints.enum.filter fun p =>
      decide (p.1 ≤ idx) && decide (windowStart ≤ p.2.1) && decide (p.2.1 ≤ point.1)
    if windowPoints.length = 0 then point.2
    else (windowPoints.map fun p => p.2.2).sum / windowPoints.length

/-- The first array element on which `Number` coercion is not NaN
(the `firstValidValue` scan of `makeRelativeToZero`). -/
def firstValidNumber (values : List JSVal) : Option ℚ :=
  values.findSome? toNumberOpt

/-- The per-entry body of the `makeRelativeToZero` map: numeric entries
are shifted by the first valid value, NaN-coercing entries are returned
unchanged. -/
def rebaseEntry (firstValidValue : ℚ) (val : JSVal) : JSVal :=
  match toNumberOpt val with
  | none => val
  | some n => .num (n - firstValidValue)

/-- App.jsx / DataProcessor.jsx `makeRelativeToZero(values)`: shift
every numeric entry by the first valid value; entries whose `Number`
coercion is NaN are returned unchanged; if no valid value exists the
array is returned unchanged (the empty-array guard is subsumed by the
`none` case). -/
def makeRelativeToZero (values : List JSVal) : List JSVal :=
  match values.findSome? toNumberOpt with
  | none => values
  | some firstValidValue => values.map (rebaseEntry firstValidValue)

/-- The per-entry body of the chartData inline rebase map: numeric
entries are shifted by the first valid value, NaN-coercing entries
become `0`. -/
def inlineRebaseEntry (firstValue : ℚ) (val : JSVal) : JSVal :=
  match toNumberOpt val with
  | none => .num 0
  | some n => .num (n - firstValue)

/-- App.jsx chartData inline rebase step (the relativeToZero block of
the grouped and ungrouped single-axis paths): same first-valid scan as
`makeRelativeToZero`, but entries whose `Number` coercion is NaN become
`0` instead of being passed through. -/
def inlineRelativeToZero (values : List JSVal) : List JSVal :=
  match values.findSome? toNumberOpt with
  | none => values
  | some firstValue => values.map (inlineRebaseEntry firstValue)

/-- A uniform translation of a raw value sequence: every entry with a
valid numeric coercion is shifted by `c`, the rest are untouched. -/
def translateJS (c : ℚ) (val : JSVal) : JSVal :=
  match toNumberOpt val with
  | none => val
  | some n => .num (n + c)

/-- The inline rebase step specialised to an array of plain numbers,
which is what the chartData pipeline feeds it (`yValues` is already
NaN-filtered): the first valid value is simply the head. -/
def inlineRebaseQ (ys : List ℚ) : List ℚ :=
  match ys with
  | [] => []
  | h :: t => (h :: t).map fun v => v - h

/-- `x.toFixed(4)` followed by `parseFloat`: round half up at the
fourth decimal digit. -/
def roundTo4 (q : ℚ) : ℚ :=
  (Int.floor (q * 10000 + 1 / 2) : ℚ) / 10000

/-- JS ascending sort `[...data].sort((a, b) => a - b)`. -/
def sortAsc (values : List ℚ) : List ℚ :=
  values.mergeSort fun a b => decide (a ≤ b)

/-- `Math.min(...data)` for the non-empty arrays the source guards. -/
def jsMin : List ℚ → ℚ
  | [] => 0
  | d :: ds => ds.foldl min d

/-- `Math.max(...data)` for the non-empty arrays the source guards. -/
def jsMax : List ℚ → ℚ
  | [] => 0
  | d :: ds => ds.foldl max d

/-- Full-precision arithmetic mean, as computed inside
`calculateStatistics` before rounding. -/
def meanQ (data : List ℚ) : ℚ := data.sum / data.length

/-- Full-precision population variance (divide by N), as computed
inside `calculateStatistics`; the source takes `Math.sqrt` of this for
`stdDev`. -/
def varianceQ (data : List ℚ) : ℚ :=
  (data.map fun val => (val - meanQ data) ^ 2).sum / data.length

/-- The result record of `calculateStatistics`.  The source returns the
4-decimal `toFixed` renderings of mean, stdDev, min, max and median
plus the count; `stdDev = Math.sqrt(varianceQ data)` is irrational in
general and is therefore not carried as a rational field (see
`varianceQ`), which none of the verified claims need. -/
structure StatsQ where
  mean : ℚ
  min : ℚ
  max : ℚ
  median : ℚ
  count : ℕ
deriving DecidableEq

/-- App.jsx `calculateStatistics(data)`: empty input yields all-zero
fields with count 0; otherwise mean, min, max and the element at sorted
index `floor(N / 2)` are computed at full precision and returned
rounded to 4 decimals (`toFixed(4)`), together with the count. -/
def calculateStatistics (data : List ℚ) : StatsQ :=
  match data with
  | [] => ⟨0, 0, 0, 0, 0⟩
  | d :: ds =>
    let sorted := sortAsc (d :: ds)
    ⟨roundTo4 (meanQ (d :: ds)),
     roundTo4 (jsMin (d :: ds)),
     roundTo4 (jsMax (d :: ds)),
     roundTo4 (sorted.getD (sorted.length / 2) 0),
     (d :: ds).length⟩

/-- App.jsx `detectDataPatterns` range computation:
`parseFloat(stats.max) - parseFloat(stats.min)`, i.e. the difference of
the already-rounded statistics fields. -/
def patternRange (values : List ℚ) : ℚ :=
  (calculateStatistics values).max - (calculateStatistics values).min

/-- App.jsx `detectOutliers(values)`: below 4 values no outliers;
otherwise Q1 and Q3 are the sorted elements at indices
`floor(0.25 * N)` and `floor(0.75 * N)` (truncated Nat division, exact
for these products), and the entries strictly outside
`[Q1 - 1.5 * IQR, Q3 + 1.5 * IQR]` are reported as (original index,
value) pairs in original order. -/
def detectOutliers (values : List ℚ) : List (ℕ × ℚ) :=
  if values.length < 4 then []
  else
    let sorted := sortAsc values
    let q1 := sorted.getD (sorted.length / 4) 0
    let q3 := sorted.getD (3 * sorted.length / 4) 0
    let iqr := q3 - q1
    let lowerBound := q1 - 3 / 2 * iqr
    let upperBound := q3 + 3 / 2 * iqr
    values.enum.filter fun p => decide (p.2 < lowerBound) || decide (upperBound < p.2)

/-- The Q1 value selected by `detectOutliers`: the sorted element at
index `floor(0.25 * N)`. -/
def sortedQ1 (values : List ℚ) : ℚ :=
  (sortAsc values).getD (values.length / 4) 0

/-- The Q3 value selected by `detectOutliers`: the sorted element at
index `floor(0.75 * N)`. -/
def sortedQ3 (values : List ℚ) : ℚ :=
  (sortAsc values).getD (3 * values.length / 4) 0

/-- Epoch milliseconds of the GPS epoch 1980-01-06T00:00:00Z
(3657 days after the Unix epoch). -/
def gpsEpochMs : ℚ := 315964800000

/-- Which interpretation the numeric branch of `convertTimestamp`
selects. -/
inductive TsPath where
  | gps
  | unixSeconds
  | unixMillis
deriving DecidableEq

/-- The branch structure of the numeric part of App.jsx
`convertTimestamp`. -/
def timestampPath (num : ℚ) : TsPath :=
  if num < 1000000000 then .gps
  else if num < 10000000000 then .unixSeconds
  else .unixMillis

/-- App.jsx `convertTimestamp` on a numeric input, returning epoch
milliseconds: below 1e9 the value is GPS seconds since the GPS epoch;
below 1e10 it is Unix seconds; otherwise Unix milliseconds. -/
def convertNumericTimestamp (num : ℚ) : ℚ :=
  if num < 1000000000 then gpsEpochMs + num * 1000
  else if num < 10000000000 then num * 1000
  else num

/-- A chart trace as assembled by chartData: instants and y values
(`none` = NaN/undefined); the styling fields of the source carry no
data content and are omitted. -/
structure Trace where
  x : List ℚ
  y : List (Option ℚ)
deriving DecidableEq

/-- The smoothingType state: point-count or time-based. -/
inductive SmoothType where
  | count
  | time
deriving DecidableEq

/-- The y values of a group that survive `parseFloat` + NaN filtering
(chartData: `groupRows.map(parseFloat).filter(!isNaN)`). -/
def validYs (rows : List (JSVal × JSVal)) : List ℚ :=
  rows.filterMap fun row => parseFloatOpt row.2

/-- JS-faithful time-based moving average over values that may be
NaN/undefined (`none`): any such value inside a window poisons the sum,
so the average is NaN. This arises in chartData's time-smoothing branch
when `finalYValues` is shorter than `xValues`. -/
def timeBasedMovingAverageOpt (dataPoints : List (ℚ × Option ℚ)) (hoursWindow : ℚ) :
    List (Option ℚ) :=
  (List.range dataPoints.length).map fun idx =>
    let point := dataPoints.getD idx (0, none)
    let windowStart := point.1 - hoursWindow * (60 * 60 * 1000)
    let windowPoints := dataPoints.enum.filter fun p =>
      decide (p.1 ≤ idx) && decide (windowStart ≤ p.2.1)
    if windowPoints.length = 0 then point.2
    else if windowPoints.all fun p => p.2.2.isSome then
      some ((windowPoints.filterMap fun p => p.2.2).sum / windowPoints.length)
    else none

/-- chartData, grouped single-axis path, for one group (App.jsx lines
654-731): `xValues` converts every row's x cell, `yValues` keeps only
the parseable y cells; traces are emitted only when both are non-empty;
the inline rebase applies when relativeToZero is on; a smoothed overlay
is added when smoothing is on and `yValues` exceeds the length gate
(the window for count mode, 2 for time mode).  The time-mode data
points pair each x instant with `finalYValues[idx]`, which is undefined
(`none`) past the end of `finalYValues`.  `convX` abstracts the total
`convertTimestamp` (string-date parsing included). -/
def groupTraces (convX : JSVal → ℚ) (relativeToZero showSmooth : Bool)
    (smoothingType : SmoothType) (smoothingWindow : ℕ) (smoothingHours : ℚ)
    (groupRows : List (JSVal × JSVal)) : List Trace :=
  let xValues := groupRows.map fun row => convX row.1
  let yValues := groupRows.filterMap fun row => parseFloatOpt row.2
  if 0 < xValues.length ∧ 0 < yValues.length then
    let finalYValues := if relativeToZero = true ∧ 0 < yValues.length then
        inlineRebaseQ yValues
      else yValues
    let base : Trace := ⟨xValues, finalYValues.map some⟩
    let gate := match smoothingType with
      | .count => smoothingWindow
      | .time => 2
    let overlays : List Trace :=
      if showSmooth = true ∧ gate < yValues.length then
        match smoothingType with
        | .time =>
          [⟨xValues,
            timeBasedMovingAverageOpt
              (xValues.enum.map fun p => (p.2, finalYValues.get? p.1)) smoothingHours⟩]
        | .count => [⟨xValues, (movingAverage finalYValues smoothingWindow).map some⟩]
      else []
    base :: overlays
  else []

/-- chartData, grouped single-axis path over all groups. -/
def chartDataGrouped (convX : JSVal → ℚ) (relativeToZero showSmooth : Bool)
    (smoothingType : SmoothType) (smoothingWindow : ℕ) (smoothingHours : ℚ)
    (groups : List (List (JSVal × JSVal))) : List Trace :=
  groups.flatMap
    (groupTraces convX relativeToZero showSmooth smoothingType smoothingWindow smoothingHours)

/-- chartData, ungrouped single-axis fallback (App.jsx lines 736-790),
including the empty-data early return at the top of chartData: the base
trace is emitted unconditionally once data is non-empty, and the
count-mode overlay (the only smoothing mode in this path) smooths the
unrebased `yValues`. -/
def chartDataUngrouped (convX : JSVal → ℚ) (relativeToZero showSmooth : Bool)
    (smoothingWindow : ℕ) (rows : List (JSVal × JSVal)) : List Trace :=
  if rows.length = 0 then []
  else
    let xValues := rows.map fun row => convX row.1
    let yValues := rows.filterMap fun row => parseFloatOpt row.2
    let finalYValues := if relativeToZero = true ∧ 0 < yValues.length then
        inlineRebaseQ yValues
      else yValues
    let base : Trace := ⟨xValues, finalYValues.map some⟩
    if showSmooth = true ∧ smoothingWindow < yValues.length then
      [base, ⟨xValues, (movingAverage yValues smoothingWindow).map some⟩]
    else [base]

/-! ## Helper lemmas -/

theorem toNumberOpt_rebaseEntry (first : ℚ) (v : JSVal) :
    toNumberOpt (rebaseEntry first v) = (toNumberOpt v).map (fun n => n - first) := by
  cases h : toNumberOpt v with
  | none => simp only [rebaseEntry, h]; simp [h]
  | some n => simp only [rebaseEntry, h]; rfl

theorem toNumberOpt_translateJS (c : ℚ) (v : JSVal) :
    toNumberOpt (translateJS c v) = (toNumberOpt v).map (fun n => n + c) := by
  cases h : toNumberOpt v with
  | none => simp only [translateJS, h]; simp [h]
  | some n => simp only [translateJS, h]; rfl

theorem findSome?_toNumberOpt_map (f : JSVal → JSVal) (g : ℚ → ℚ)
    (hf : ∀ v, toNumberOpt (f v) = (toNumberOpt v).map g) (l : List JSVal) :
    (l.map f).findSome? toNumberOpt = (l.findSome? toNumberOpt).map g := by
  induction l with
  | nil => simp
  | cons a l ih =>
    simp only [List.map_cons, List.findSome?_cons, hf a]
    cases toNumberOpt a <;> simp [ih]

/-- C4: numeric timestamps below 1e9 take the GPS-seconds path, those in
[1e9, 1e10) the Unix-seconds path, the rest the Unix-milliseconds path;
999999999 is GPS, 1000000000 and 9999999999 are Unix seconds,
10000000000 is Unix milliseconds. -/
theorem convertTimestamp_numeric_paths :
    (∀ num : ℚ, num < 1000000000 →
      timestampPath num = .gps ∧
      convertNumericTimestamp num = gpsEpochMs + num * 1000) ∧
    (∀ num : ℚ, 1000000000 ≤ num → num < 10000000000 →
      timestampPath num = .unixSeconds ∧ convertNumericTimestamp num = num * 1000) ∧
    (∀ num : ℚ, 10000000000 ≤ num →
      timestampPath num = .unixMillis ∧ convertNumericTimestamp num = num) ∧
    timestampPath 999999999 = .gps ∧
    timestampPath 1000000000 = .unixSeconds ∧
    timestampPath 9999999999 = .unixSeconds ∧
    timestampPath 10000000000 = .unixMillis := by
  refine ⟨?_, ?_, ?_, ?_, ?_, ?_, ?_⟩
  · intro num h
    exact ⟨by simp [timestampPath, if_pos h], by simp [convertNumericTimestamp, if_pos h]⟩
  · intro num h1 h2
    have h3 : ¬ num < 1000000000 := not_lt.2 h1
    exact ⟨by simp [timestampPath, h3, h2], by simp [convertNumericTimestamp, h3, h2]⟩
  · intro num h1
    have h2 : ¬ num < 1000000000 := not_lt.2 (le_trans (by norm_num) h1)
    have h3 : ¬ num < 10000000000 := not_lt.2 h1
    exact ⟨by simp [timestampPath, h2, h3], by simp [convertNumericTimestamp, h2, h3]⟩
  · with_unfolding_all decide
  · with_unfolding_all decide
  · with_unfolding_all decide
  · with_unfolding_all decide

theorem convertTimestamp_numeric_paths_witness :
    timestampPath 500 = .gps ∧
    convertNumericTimestamp 500 = gpsEpochMs + 500 * 1000 :=
  convertTimestamp_numeric_paths.1 500 (by norm_num)

/-- C9: the statistics median is the 4-decimal rendering of the sorted
element at index floor(N / 2) (the upper-middle element for even N);
for [1, 2, 3, 4] it is 3, not the textbook 2.5; empty input yields
all-zero fields with count 0. -/
theorem calculateStatistics_median_rule :
    (∀ d : ℚ, ∀ ds : List ℚ,
      (calculateStatistics (d :: ds)).median =
        roundTo4 ((sortAsc (d :: ds)).getD ((d :: ds).length / 2) 0)) ∧
    (calculateStatistics [1, 2, 3, 4]).median = 3 ∧
    (3 : ℚ) ≠ 5 / 2 ∧
    calculateStatistics [] = ⟨0, 0, 0, 0, 0⟩ := by
  refine ⟨?_, ?_, by norm_num, rfl⟩
  · intro d ds
    simp [calculateStatistics, sortAsc, List.length_mergeSort]
  · with_unfolding_all decide

/-- C10: `Number` coercion maps the empty string and null to the valid
number 0, so `makeRelativeToZero` takes such a first element as the
baseline (value 0) instead of skipping it: the entry is rewritten to 0
and later numeric entries are shifted by 0, i.e. left as they are. -/
theorem makeRelativeToZero_emptyString_null_baseline :
    toNumberOpt (.str ("")) = some 0 ∧
    toNumberOpt .null = some 0 ∧
    (∀ t : List JSVal, firstValidNumber (.str ("") :: t) = some 0) ∧
    (∀ t : List JSVal, firstValidNumber (.null :: t) = some 0) ∧
    (∀ t : List JSVal, (makeRelativeToZero (.str ("") :: t)).head? = some (.num 0)) ∧
    (∀ t : List JSVal, (makeRelativeToZero (.null :: t)).head? = some (.num 0)) ∧
    makeRelativeToZero [.str (""), .num 5] = [.num 0, .num 5] ∧
    makeRelativeToZero [.null, .num 5] = [.num 0, .num 5] := by
  have h0 : toNumberOpt (.str ("")) = some 0 := by with_unfolding_all rfl
  have h1 : toNumberOpt .null = some 0 := rfl
  refine ⟨h0, h1, ?_, ?_, ?_, ?_, ?_, ?_⟩
  · intro t; simp [firstValidNumber, List.findSome?_cons, h0]
  · intro t; simp [firstValidNumber, List.findSome?_cons, h1]
  · intro t; simp [makeRelativeToZero, List.findSome?_cons, h0, rebaseEntry]
  · intro t; simp [makeRelativeToZero, List.findSome?_cons, h1, rebaseEntry]
  · with_unfolding_all decide
  · with_unfolding_all decide

/-- C2 counterexample: on the data [0, 0.00012] the pattern detector's
range, computed from the 4-decimal-rounded statistics fields, is
0.0001, while the full-precision max minus min is 0.00012; the two
disagree, so further computation is not carried out at full
precision. -/
theorem patternRange_uses_rounded_stats :
    patternRange [0, 3 / 25000] = 1 / 10000 ∧
    jsMax [0, 3 / 25000] - jsMin [0, 3 / 25000] = 3 / 25000 ∧
    (1 / 10000 : ℚ) ≠ 3 / 25000 := by
  refine ⟨?_, ?_, ?_⟩
  · norm_num [patternRange, calculateStatistics, jsMin, jsMax, roundTo4, meanQ]
  · norm_num [jsMin, jsMax]
  · norm_num

/-- C2 amended: the statistics fields are already rounded to 4 decimals
inside the statistics engine, and the pattern detector's range is the
difference of those rounded fields, not of the full-precision
extremes. -/
theorem calculateStatistics_rounding :
    ∀ d : ℚ, ∀ ds : List ℚ,
      (calculateStatistics (d :: ds)).mean = roundTo4 (meanQ (d :: ds)) ∧
      (calculateStatistics (d :: ds)).min = roundTo4 (jsMin (d :: ds)) ∧
      (calculateStatistics (d :: ds)).max = roundTo4 (jsMax (d :: ds)) ∧
      (calculateStatistics (d :: ds)).median =
        roundTo4 ((sortAsc (d :: ds)).getD ((d :: ds).length / 2) 0) ∧
      patternRange (d :: ds) =
        roundTo4 (jsMax (d :: ds)) - roundTo4 (jsMin (d :: ds)) := by
  intro d ds
  refine ⟨rfl, rfl, rfl, ?_, rfl⟩
  simp [calculateStatistics, sortAsc, List.length_mergeSort]

/-- C6: the two zero-baselining policies at the two call sites: the
standalone utility returns an entry whose `Number` coercion is NaN
unchanged, while the inline chartData step replaces it with 0 (both
shift numeric entries by the first valid value). -/
theorem zeroBaseline_dual_policy :
    ∀ values : List JSVal, ∀ i : ℕ, ∀ v : JSVal, ∀ first : ℚ,
      values[i]? = some v → toNumberOpt v = none →
      values.findSome? toNumberOpt = some first →
      (makeRelativeToZero values)[i]? = some v ∧
      (inlineRelativeToZero values)[i]? = some (.num 0) := by
  intro values i v first hget hnan hfirst
  have hre : rebaseEntry first v = v := by unfold rebaseEntry; rw [hnan]
  have hie : inlineRebaseEntry first v = .num 0 := by unfold inlineRebaseEntry; rw [hnan]
  constructor
  · simp [makeRelativeToZero, hfirst, List.getElem?_map, hget, hre]
  · simp [inlineRelativeToZero, hfirst, List.getElem?_map, hget, hie]

theorem zeroBaseline_dual_policy_witness :
    (makeRelativeToZero [.num 5, .undef])[1]? = some .undef ∧
    (inlineRelativeToZero [.num 5, .undef])[1]? = some (.num 0) :=
  zeroBaseline_dual_policy [.num 5, .undef] 1 .undef 5 rfl rfl rfl

/-- C8: below 4 values no outliers are reported; otherwise exactly the
values strictly outside [Q1 - 1.5 IQR, Q3 + 1.5 IQR] (Q1 and Q3 at
sorted indices floor(0.25 N) and floor(0.75 N)) are reported with their
original indices; on [1, 2, 3, 4, 5, 100] only 100 (index 5) is
flagged. -/
theorem detectOutliers_spec :
    (∀ values : List ℚ, values.length < 4 → detectOutliers values = []) ∧
    (∀ values : List ℚ, 4 ≤ values.length → ∀ i : ℕ, ∀ v : ℚ,
      ((i, v) ∈ detectOutliers values ↔
        values[i]? = some v ∧
        (v < sortedQ1 values - 3 / 2 * (sortedQ3 values - sortedQ1 values) ∨
         sortedQ3 values + 3 / 2 * (sortedQ3 values - sortedQ1 values) < v))) ∧
    detectOutliers [1, 2, 3, 4, 5, 100] = [(5, 100)] := by
  refine ⟨?_, ?_, ?_⟩
  · intro values h; simp [detectOutliers, if_pos h]
  · intro values h i v
    have hnot : ¬ values.length < 4 := not_lt.2 h
    simp only [detectOutliers, if_neg hnot]
    rw [List.mem_filter]
    simp [List.mem_enum_iff_getElem?, sortedQ1, sortedQ3, sortAsc, List.length_mergeSort]
  · with_unfolding_all decide

theorem detectOutliers_spec_witness : detectOutliers [1, 2, 3] = [] :=
  detectOutliers_spec.1 [1, 2, 3] (by norm_num)

/-- C5: when the first element coerces to a number the baselined output
starts at 0; re-baselining an already-baselined sequence changes
nothing; and baselining after a uniform translation agrees with a
single baselining (exactly, since the model uses exact rationals). -/
theorem makeRelativeToZero_baseline_props :
    (∀ v : JSVal, ∀ q : ℚ, ∀ t : List JSVal, toNumberOpt v = some q →
      (makeRelativeToZero (v :: t)).head? = some (.num 0)) ∧
    (∀ values : List JSVal,
      makeRelativeToZero (makeRelativeToZero values) = makeRelativeToZero values) ∧
    (∀ c : ℚ, ∀ values : List JSVal,
      makeRelativeToZero (values.map (translateJS c)) = makeRelativeToZero values) := by
  refine ⟨?_, ?_, ?_⟩
  · intro v q t hv
    have hf : (v :: t).findSome? toNumberOpt = some q := by
      simp [List.findSome?_cons, hv]
    have hr : rebaseEntry q v = .num 0 := by
      unfold rebaseEntry; rw [hv]; simp
    simp [makeRelativeToZero, hf, hr]
  · intro values
    cases h : values.findSome? toNumberOpt with
    | none => simp [makeRelativeToZero, h]
    | some first =>
      have hinner : makeRelativeToZero values = values.map (rebaseEntry first) := by
        simp [makeRelativeToZero, h]
      have hm2 : (values.map (rebaseEntry first)).findSome? toNumberOpt = some 0 := by
        rw [findSome?_toNumberOpt_map (rebaseEntry first) (fun n => n - first)
          (toNumberOpt_rebaseEntry first) values, h]
        simp
      rw [hinner]
      simp only [makeRelativeToZero, hm2]
      rw [List.map_map]
      apply List.map_congr_left
      intro a _
      cases hv : toNumberOpt a with
      | none =>
        have h1 : rebaseEntry first a = a := by unfold rebaseEntry; rw [hv]
        simp [Function.comp, h1]
        unfold rebaseEntry; rw [hv]
      | some n =>
        have h1 : rebaseEntry first a = .num (n - first) := by unfold rebaseEntry; rw [hv]
        show rebaseEntry 0 (rebaseEntry first a) = rebaseEntry first a
        rw [h1]
        show JSVal.num (n - first - 0) = JSVal.num (n - first)
        rw [sub_zero]
  · intro c values
    cases h : values.findSome? toNumberOpt with
    | none =>
      have hall := List.findSome?_eq_none_iff.mp h
      have hid : values.map (translateJS c) = values := by
        conv_rhs => rw [← List.map_id values]
        apply List.map_congr_left
        intro a ha
        unfold translateJS; rw [hall a ha]; rfl
      rw [hid]
    | some first =>
      have hmap : (values.map (translateJS c)).findSome? toNumberOpt = some (first + c) := by
        rw [findSome?_toNumberOpt_map (translateJS c) (fun n => n + c)
          (toNumberOpt_translateJS c) values, h]
        rfl
      have houter : makeRelativeToZero (values.map (translateJS c)) =
          (values.map (translateJS c)).map (rebaseEntry (first + c)) := by
        simp [makeRelativeToZero, hmap]
      have hinner : makeRelativeToZero values = values.map (rebaseEntry first) := by
        simp [makeRelativeToZero, h]
      rw [houter, hinner, List.map_map]
      apply List.map_congr_left
      intro a _
      cases hv : toNumberOpt a with
      | none =>
        have h1 : translateJS c a = a := by unfold translateJS; rw [hv]
        have h2 : rebaseEntry (first + c) a = a := by unfold rebaseEntry; rw [hv]
        have h3 : rebaseEntry first a = a := by unfold rebaseEntry; rw [hv]
        simp [Function.comp, h1, h2, h3]
      | some n =>
        have h1 : translateJS c a = .num (n + c) := by unfold translateJS; rw [hv]
        have h3 : rebaseEntry first a = .num (n - first) := by unfold rebaseEntry; rw [hv]
        show rebaseEntry (first + c) (translateJS c a) = rebaseEntry first a
        rw [h1, h3]
        show JSVal.num (n + c - (first + c)) = JSVal.num (n - first)
        have h4 : n + c - (first + c) = n - first := by ring
        rw [h4]

theorem makeRelativeToZero_baseline_props_witness :
    (makeRelativeToZero [.num 3]).head? = some (.num 0) :=
  makeRelativeToZero_baseline_props.1 (.num 3) 3 [] rfl

/-- C3 counterexample: with points [(36000000, 0), (0, 100)] (row order
is not instant order) and a 1-hour window, the source smoother includes
the earlier-index point whose instant 36000000 lies in the future of
instant 0, producing 50 at index 1, whereas the claimed window
[instant - 3600000, instant] contains only the point itself, whose mean
is 100. -/
theorem timeBasedMovingAverage_includes_future_point :
    timeBasedMovingAverage [(36000000, 0), (0, 100)] 1 = [0, 50] ∧
    timeBasedMovingAverageSpec [(36000000, 0), (0, 100)] 1 = [0, 100] ∧
    ((50 : ℚ) ≠ 100) := by
  refine ⟨?_, ?_, by norm_num⟩
  · with_unfolding_all decide
  · with_unfolding_all decide

/-- C3 amended: the output always has the input's length, and the
window at index i is all points with index j ≤ i and instant ≥
instant_i - hours·3600000 ms, with no upper bound on the instant; when
the instants are non-decreasing in index order this coincides with the
claimed closed window [instant_i - hours·3600000, instant_i]. -/
theorem timeBasedMovingAverage_characterization :
    (∀ pts : List (ℚ × ℚ), ∀ hrs : ℚ,
      (timeBasedMovingAverage pts hrs).length = pts.length) ∧
    (∀ pts : List (ℚ × ℚ), ∀ hrs : ℚ,
      pts.Pairwise (fun p q => p.1 ≤ q.1) →
      timeBasedMovingAverage pts hrs = timeBasedMovingAverageSpec pts hrs) := by
  constructor
  · intro pts hrs
    simp [timeBasedMovingAverage]
  · intro pts hrs hsorted
    unfold timeBasedMovingAverage timeBasedMovingAverageSpec
    apply List.map_congr_left
    intro idx hidx
    rw [List.mem_range] at hidx
    have hfil : (pts.enum.filter fun p =>
          decide (p.1 ≤ idx) &&
            decide ((pts.getD idx (0, 0)).1 - hrs * (60 * 60 * 1000) ≤ p.2.1))
        = pts.enum.filter fun p =>
          decide (p.1 ≤ idx) &&
            decide ((pts.getD idx (0, 0)).1 - hrs * (60 * 60 * 1000) ≤ p.2.1) &&
            decide (p.2.1 ≤ (pts.getD idx (0, 0)).1) := by
      apply List.filter_congr
      intro p hp
      rcases Bool.eq_false_or_eq_true
          (decide (p.1 ≤ idx) &&
            decide ((pts.getD idx (0, 0)).1 - hrs * (60 * 60 * 1000) ≤ p.2.1)) with hb | hb
      · rw [hb, Bool.true_and]
        have hple : p.1 ≤ idx :=
          of_decide_eq_true (((Bool.and_eq_true _ _).mp hb).1)
        rw [List.mem_enum_iff_getElem?] at hp
        obtain ⟨hjlt, heq⟩ := List.getElem?_eq_some.mp hp
        have hle2 : p.2.1 ≤ (pts.getD idx (0, 0)).1 := by
          rw [List.getD_eq_getElem pts (0, 0) hidx]
          rcases lt_or_eq_of_le hple with hlt2 | heq2
          · have hrel := List.pairwise_iff_getElem.mp hsorted p.1 idx hjlt hidx hlt2
            rw [heq] at hrel
            exact hrel
          · rw [heq2] at hp
            rw [List.getElem?_eq_getElem hidx] at hp
            exact le_of_eq (congrArg Prod.fst (Option.some.inj hp).symm)
        exact (decide_eq_true hle2).symm
      · rw [hb, Bool.false_and]
    simp only [hfil]

theorem timeBasedMovingAverage_characterization_witness :
    timeBasedMovingAverage [(0, 1), (3600000, 5)] 1 =
      timeBasedMovingAverageSpec [(0, 1), (3600000, 5)] 1 :=
  timeBasedMovingAverage_characterization.2 [(0, 1), (3600000, 5)] 1
    (by norm_num [List.pairwise_cons])

theorem movingAverage_length (data : List ℚ) (w : ℕ) :
    (movingAverage data w).length = data.length := by
  simp [movingAverage]

theorem inlineRebaseQ_length (ys : List ℚ) : (inlineRebaseQ ys).length = ys.length := by
  cases ys <;> simp [inlineRebaseQ]

theorem timeBasedMovingAverageOpt_length (pts : List (ℚ × Option ℚ)) (hrs : ℚ) :
    (timeBasedMovingAverageOpt pts hrs).length = pts.length := by
  simp [timeBasedMovingAverageOpt]

/-- C1 counterexample: a group of two rows whose second y cell does not
parse yields one trace with x-length 2 and y-length 1 (unequal,
misaligned); and the ungrouped path emits a trace with empty y when no
y cell parses, instead of omitting it. -/
theorem chartData_trace_length_mismatch :
    (chartDataGrouped (fun _ => 0) false false .count 5 24
        [[(.num 0, .num 1), (.num 0, .str ("abc"))]]).map
      (fun t => (t.x.length, t.y.length)) = [(2, 1)] ∧
    (2 ≠ 1) ∧
    (chartDataUngrouped (fun _ => 0) false false 5 [(.num 0, .str ("abc"))]).map
      (fun t => (t.x.length, t.y.length)) = [(1, 0)] := by
  refine ⟨?_, by norm_num, ?_⟩
  · with_unfolding_all decide
  · with_unfolding_all decide

/-- C1 amended: every trace emitted by the grouped single-axis path has
non-empty x and y, x-length equal to the group's row count, and
y-length equal either to the count of parseable y cells (raw trace and
count-mode overlay) or to the row count (time-mode overlay); so x and y
agree in length only when every y cell parses.  A group with zero
parseable y cells contributes no trace in the grouped path, but the
ungrouped path emits its raw trace (x-length = row count, y-length =
parseable count, possibly zero) for any non-empty data. -/
theorem chartData_trace_shape :
    (∀ convX : JSVal → ℚ, ∀ relZ sm : Bool, ∀ stype : SmoothType, ∀ w : ℕ, ∀ hrs : ℚ,
      ∀ rows : List (JSVal × JSVal), ∀ t : Trace,
      t ∈ groupTraces convX relZ sm stype w hrs rows →
      t.x.length = rows.length ∧ 0 < t.x.length ∧ 0 < t.y.length ∧
      (t.y.length = (validYs rows).length ∨ t.y.length = rows.length)) ∧
    (∀ convX : JSVal → ℚ, ∀ relZ sm : Bool, ∀ stype : SmoothType, ∀ w : ℕ, ∀ hrs : ℚ,
      ∀ rows : List (JSVal × JSVal), validYs rows = [] →
      groupTraces convX relZ sm stype w hrs rows = []) ∧
    (∀ convX : JSVal → ℚ, ∀ relZ sm : Bool, ∀ w : ℕ, ∀ rows : List (JSVal × JSVal),
      rows ≠ [] →
      ∃ t ∈ chartDataUngrouped convX relZ sm w rows,
        t.x.length = rows.length ∧ t.y.length = (validYs rows).length) := by
  have hval : ∀ rows : List (JSVal × JSVal),
      (rows.filterMap fun row => parseFloatOpt row.2) = validYs rows := fun _ => rfl
  refine ⟨?_, ?_, ?_⟩
  · intro convX relZ sm stype w hrs rows t ht
    simp only [groupTraces, hval] at ht
    split at ht
    case isFalse => exact absurd ht (List.not_mem_nil t)
    case isTrue hc =>
      have hx : 0 < rows.length := by
        have h1 := hc.1
        rwa [List.length_map] at h1
      have hfinal : (if relZ = true ∧ 0 < (validYs rows).length then
          inlineRebaseQ (validYs rows) else validYs rows).length = (validYs rows).length := by
        split
        · exact inlineRebaseQ_length _
        · rfl
      rw [List.mem_cons] at ht
      rcases ht with rfl | ht2
      · refine ⟨?_, hc.1, ?_, Or.inl ?_⟩
        · dsimp only
          rw [List.length_map]
        · dsimp only
          rw [List.length_map, hfinal]
          exact hc.2
        · dsimp only
          rw [List.length_map, hfinal]
      · split at ht2
        case isFalse => exact absurd ht2 (List.not_mem_nil t)
        case isTrue hs =>
          cases stype with
          | time =>
            rw [List.mem_singleton] at ht2
            subst ht2
            refine ⟨?_, hc.1, ?_, Or.inr ?_⟩
            · dsimp only
              rw [List.length_map]
            · dsimp only
              rw [timeBasedMovingAverageOpt_length, List.length_map, List.enum_length,
                List.length_map]
              exact hx
            · dsimp only
              rw [timeBasedMovingAverageOpt_length, List.length_map, List.enum_length,
                List.length_map]
          | count =>
            rw [List.mem_singleton] at ht2
            subst ht2
            refine ⟨?_, hc.1, ?_, Or.inl ?_⟩
            · dsimp only
              rw [List.length_map]
            · dsimp only
              rw [List.length_map, movingAverage_length, hfinal]
              exact hc.2
            · dsimp only
              rw [List.length_map, movingAverage_length, hfinal]
  · intro convX relZ sm stype w hrs rows hempty
    simp only [groupTraces, hval, hempty]
    simp
  · intro convX relZ sm w rows hne
    have hlen : ¬ rows.length = 0 := by
      simpa [List.length_eq_zero] using hne
    simp only [chartDataUngrouped, hval, if_neg hlen]
    have hfinal : (if relZ = true ∧ 0 < (validYs rows).length then
        inlineRebaseQ (validYs rows) else validYs rows).length = (validYs rows).length := by
      split
      · exact inlineRebaseQ_length _
      · rfl
    split
    · refine ⟨_, List.mem_cons_self _ _, ?_, ?_⟩
      · dsimp only
        rw [List.length_map]
      · dsimp only
        rw [List.length_map, hfinal]
    · refine ⟨_, List.mem_singleton_self _, ?_, ?_⟩
      · dsimp only
        rw [List.length_map]
      · dsimp only
        rw [List.length_map, hfinal]

theorem chartData_trace_shape_witness :
    groupTraces (fun _ => 0) false false .count 5 24 [(.num 0, .str ("abc"))] = [] :=
  chartData_trace_shape.2.1 (fun _ => 0) false false .count 5 24 [(.num 0, .str ("abc"))]
    (by with_unfolding_all decide)

theorem windowSlice_length (data : List ℚ) (w idx : ℕ) (h : idx < data.length) :
    (windowSlice data w idx).length = min (idx + 1) w := by
  simp only [windowSlice, List.length_drop, List.length_take]
  omega

theorem windowSlice_subset (data : List ℚ) (w idx : ℕ) :
    windowSlice data w idx ⊆ data :=
  fun _ hx => List.take_subset _ _ (List.drop_subset _ _ hx)

theorem mean_bounds (s : List ℚ) (hs : s ≠ []) (lo hi : ℚ)
    (hlo : ∀ x ∈ s, lo ≤ x) (hhi : ∀ x ∈ s, x ≤ hi) :
    lo ≤ s.sum / s.length ∧ s.sum / s.length ≤ hi := by
  have hlen : (0 : ℚ) < s.length := by
    exact_mod_cast List.length_pos.2 hs
  constructor
  · rw [le_div_iff₀ hlen]
    have h1 := List.card_nsmul_le_sum s lo hlo
    rw [nsmul_eq_mul] at h1
    linarith
  · rw [div_le_iff₀ hlen]
    have h1 := List.sum_le_card_nsmul s hi hhi
    rw [nsmul_eq_mul] at h1
    linarith

theorem mean_le_mean_concat (t : List ℚ) (x : ℚ) (ht : t ≠ [])
    (hx : ∀ y ∈ t, y ≤ x) :
    t.sum / t.length ≤ (t.sum + x) / ((t.length : ℚ) + 1) := by
  have hlen : (0 : ℚ) < t.length := by
    exact_mod_cast List.length_pos.2 ht
  rw [div_le_div_iff₀ hlen (by linarith)]
  have h1 := List.sum_le_card_nsmul t x hx
  rw [nsmul_eq_mul] at h1
  nlinarith

theorem movingAverage_step (l : List ℚ) (w : ℕ) (hw : 1 ≤ w)
    (hmono : l.Sorted (· ≤ ·)) (i : ℕ) (hi : i + 1 < l.length) :
    (windowSlice l w i).sum / (windowSlice l w i).length ≤
      (windowSlice l w (i + 1)).sum / (windowSlice l w (i + 1)).length := by
  have hi0 : i < l.length := by omega
  have htake : l.take (i + 2) = l.take (i + 1) ++ [l[i + 1]] := by
    rw [List.take_succ, List.getElem?_eq_getElem hi]
    rfl
  by_cases hcase : w ≤ i + 1
  · -- saturated window of size w: drop the oldest element, append the new one
    have hsw : i + 1 - w < l.length := by omega
    have hsl : i + 1 - w < (l.take (i + 1)).length := by
      rw [List.length_take]; omega
    have hdrop1 : windowSlice l w i =
        l[i + 1 - w] :: (l.take (i + 1)).drop (i + 1 - w + 1) := by
      unfold windowSlice
      rw [List.drop_eq_getElem_cons hsl]
      congr 1
      exact List.getElem_take l
    have hdrop2 : windowSlice l w (i + 1) =
        (l.take (i + 1)).drop (i + 1 - w + 1) ++ [l[i + 1]] := by
      unfold windowSlice
      have heq : i + 1 + 1 - w = i + 1 - w + 1 := by omega
      rw [heq, htake, List.drop_append_of_le_length (by rw [List.length_take]; omega)]
    have hsle : l[i + 1 - w] ≤ l[i + 1] :=
      List.pairwise_iff_getElem.mp hmono (i + 1 - w) (i + 1) hsw hi (by omega)
    rw [hdrop1, hdrop2]
    simp only [List.sum_cons, List.sum_append, List.sum_cons, List.sum_nil, add_zero,
      List.length_cons, List.length_append, List.length_singleton]
    apply div_le_div_of_nonneg_right ?_ (by positivity)
    linarith
  · -- growing window: both slices start at index 0
    have h1 : i + 1 - w = 0 := by omega
    have hsl1 : windowSlice l w i = l.take (i + 1) := by
      unfold windowSlice; rw [h1, List.drop_zero]
    have hsl2 : windowSlice l w (i + 1) = l.take (i + 1) ++ [l[i + 1]] := by
      unfold windowSlice
      have h2 : i + 1 + 1 - w = 0 := by omega
      rw [h2, List.drop_zero]
      exact htake
    have htlen : (l.take (i + 1)).length = i + 1 := by
      rw [List.length_take]; omega
    have htne : l.take (i + 1) ≠ [] := by
      intro hnil
      rw [hnil] at htlen
      simp at htlen
    have hbound : ∀ y ∈ l.take (i + 1), y ≤ l[i + 1] := by
      intro y hy
      obtain ⟨j, hj, hy2⟩ := List.mem_iff_getElem.mp hy
      have hjlt : j < i + 1 := by omega
      have hjl : j < l.length := by omega
      have hje : (l.take (i + 1))[j] = l[j] := List.getElem_take l
      rw [hje] at hy2
      rw [← hy2]
      exact List.pairwise_iff_getElem.mp hmono j (i + 1) hjl hi hjlt
    have h := mean_le_mean_concat (l.take (i + 1)) l[i + 1] htne hbound
    rw [hsl1, hsl2]
    simp only [List.sum_append, List.sum_cons, List.sum_nil, add_zero,
      List.length_append, List.length_singleton, Nat.cast_add, Nat.cast_one]
    exact h

/-- C7: on a monotonically non-decreasing input and any window size
W ≥ 3, the point-count moving average is monotonically non-decreasing
and every output element lies between any lower and upper bound of the
input (in particular between min(input) and max(input)). -/
theorem movingAverage_monotone_bounded (l : List ℚ) (w : ℕ) (hw : 3 ≤ w)
    (hmono : l.Sorted (· ≤ ·)) (lo hi : ℚ)
    (hlo : ∀ x ∈ l, lo ≤ x) (hhi : ∀ x ∈ l, x ≤ hi) :
    (movingAverage l w).Sorted (· ≤ ·) ∧
    ∀ y ∈ movingAverage l w, lo ≤ y ∧ y ≤ hi := by
  have hw1 : 1 ≤ w := by omega
  have hma : movingAverage l w =
      (List.range l.length).map
        (fun idx => (windowSlice l w idx).sum / (windowSlice l w idx).length) := rfl
  constructor
  · rw [hma, List.Sorted, List.pairwise_iff_getElem]
    intro a b ha hb hab
    have han : a < l.length := by simpa using ha
    have hbn : b < l.length := by simpa using hb
    rw [List.getElem_map, List.getElem_map, List.getElem_range, List.getElem_range]
    have key : ∀ j, j < l.length → ∀ i, i ≤ j →
        (windowSlice l w i).sum / (windowSlice l w i).length ≤
          (windowSlice l w j).sum / (windowSlice l w j).length := by
      intro j
      induction j with
      | zero =>
        intro _ i hij
        have : i = 0 := Nat.le_zero.mp hij
        rw [this]
      | succ j ih =>
        intro hj i hij
        by_cases hii : i = j + 1
        · rw [hii]
        · have hij2 : i ≤ j := by omega
          exact le_trans (ih (by omega) i hij2) (movingAverage_step l w hw1 hmono j hj)
    exact key b hbn a (le_of_lt hab)
  · intro y hy
    rw [hma] at hy
    obtain ⟨idx, hidx, rfl⟩ := List.mem_map.mp hy
    rw [List.mem_range] at hidx
    have hne : windowSlice l w idx ≠ [] := by
      have hlen := windowSlice_length l w idx hidx
      intro h0
      rw [h0] at hlen
      simp at hlen
      omega
    have hsub := windowSlice_subset l w idx
    exact mean_bounds _ hne lo hi (fun x hx => hlo x (hsub hx)) (fun x hx => hhi x (hsub hx))

theorem movingAverage_monotone_bounded_witness :
    (movingAverage [1, 2, 3, 4] 3).Sorted (· ≤ ·) ∧
    ∀ y ∈ movingAverage [1, 2, 3, 4] 3, 1 ≤ y ∧ y ≤ 4 :=
  movingAverage_monotone_bounded [1, 2, 3, 4] 3 (by norm_num)
    (by norm_num [List.sorted_cons])
    1 4 (by with_unfolding_all decide) (by with_unfolding_all decide)
